import Mathlib

/-!
Verification of the trustctl certificate-lifecycle agent (Go) against its
natural-language specification.  The Go source is shallowly embedded:

* pure functions (`Resolver.Resolve`, `updateNginxSSL`, `updateApacheSSL`,
  the scaffold CA clients) become Lean functions translated clause by clause;
* filesystem state (the metadata root `/opt/trustctl/certs`) becomes an
  explicit list of directory entries threaded through `Store`/`Load`/`ListAll`;
* external I/O whose outcome the code merely branches on (permission checks,
  plugin loading, DNS `Present` calls, `os.MkdirAll`/`os.WriteFile` success)
  becomes boolean oracles in an environment record, and each side-effecting
  call is recorded as an `Event` in an explicit trace;
* the command handlers (`requestCmd` of plugins_src/cloudflare.go,
  `renewCmd`/`renewDomain` of cmd/renew.go) become functions from flags,
  environment and filesystem state to a result, a new state and a trace,
  with every branch in source order.

Timestamps are modelled as `Nat` (`time.Now` is an oracle field `now`).
-/

namespace Trustctl

/-! ## Generic list helpers used by the installer model -/

/-- Whitespace characters of Go's regexp `\s` class that can occur inside a
single line (newline excluded, since configuration content is modelled as a
list of lines): space, tab, carriage return, form feed. -/
def isWS (c : Char) : Bool := c = ' ' || c = '\t' || c = '\r' || c = '\x0c'

/-- Match a literal: if `lit` is a prefix of `cs`, return the remainder. -/
def matchLit : List Char → List Char → Option (List Char)
  | [], cs => some cs
  | _, [] => none
  | l :: ls, c :: cs => if c = l then matchLit ls cs else none

/-- Split a token at its last semicolon: `splitLastSemi t = some (A, B)`
iff `t = A ++ ';' :: B` with no semicolon in `B`.  This captures the
backtracking of Go's greedy `\S+;`: the accepted `\S+` runs up to the
last `;` of the non-whitespace run. -/
def splitLastSemi : List Char → Option (List Char × List Char)
  | [] => none
  | c :: cs =>
    match splitLastSemi cs with
    | some (a, b) => some (c :: a, b)
    | none => if c = ';' then some ([], cs) else none

/-! ## Data model (internal/metadata/metadata.go) -/

/-- CertMetadata stores the configuration and state for a certificate for
renewal (struct `CertMetadata`, internal/metadata/metadata.go).  Go
`time.Time` values are modelled as `Nat` timestamps, Go `int` as `Int`. -/
structure CertMetadata where
  Domains          : List String
  ValidationMethod : String
  DNSProvider      : String := ""
  ServerURL        : String := ""
  HMACIDCred       : String := ""
  CredentialsPath  : String := ""
  InstallerType    : String := ""
  CertPath         : String := ""
  KeyPath          : String := ""
  ChainPath        : String := ""
  IssuedAt         : Nat := 0
  ExpiresAt        : Nat := 0
  RenewalAttempts  : Int := 0
  LastRenewalAt    : Nat := 0
deriving DecidableEq

/-- Content of a `metadata.json` file: either a record that parses
(`json.Unmarshal` succeeds) or malformed bytes. -/
inductive MetaFile where
  | wellFormed (m : CertMetadata)
  | malformed
deriving DecidableEq

/-- One entry directly under the metadata root `/opt/trustctl/certs`:
either a subdirectory (with or without a `metadata.json` inside) or a
plain non-directory entry. -/
inductive RootEntry where
  | dir (name : String) (file : Option MetaFile)
  | plain (name : String)
deriving DecidableEq

/-- The metadata root: the list of entries of `/opt/trustctl/certs` in
directory-listing order. -/
abbrev CertsRoot := List RootEntry

/-- Look up the subdirectory named `d`; `some f` is its `metadata.json`
content (or `none` if the file is absent). -/
def findDir : CertsRoot → String → Option (Option MetaFile)
  | [], _ => none
  | .dir n f :: es, d => if n = d then some f else findDir es d
  | .plain _ :: es, d => findDir es d

/-- `ListAll` (internal/metadata/metadata.go): returns all directory entries
under the certs root that contain a `metadata.json` file — the `os.Stat`
existence check only; the file content is never parsed. -/
def ListAll (root : CertsRoot) : List String :=
  root.filterMap fun e =>
    match e with
    | .dir n (some _) => some n
    | _ => none

/-- `Load` (internal/metadata/metadata.go): read
`/opt/trustctl/certs/<domain>/metadata.json` and unmarshal it. -/
def Load (root : CertsRoot) (domain : String) : Except String CertMetadata :=
  match findDir root domain with
  | some (some (.wellFormed m)) => .ok m
  | some (some .malformed) => .error "unmarshal metadata.json failed"
  | _ => .error "read metadata.json failed"

/-- Helper for `Store`: create/overwrite `<primary>/metadata.json`.
Returns `none` when `os.MkdirAll` fails because a non-directory entry of
that name already exists; updates the first matching directory otherwise,
or appends a fresh directory. -/
def storeRoot : CertsRoot → String → CertMetadata → Option CertsRoot
  | [], p, m => some [.dir p (some (.wellFormed m))]
  | .dir n f :: es, p, m =>
    if n = p then some (.dir n (some (.wellFormed m)) :: es)
    else (storeRoot es p m).map (.dir n f :: ·)
  | .plain n :: es, p, m =>
    if n = p then none
    else (storeRoot es p m).map (.plain n :: ·)

/-- `CertMetadata.Store` (internal/metadata/metadata.go): fails when the
record has no domains, otherwise serializes the record to
`/opt/trustctl/certs/<primary>/metadata.json` (primary = first domain),
creating the directory. -/
def Store (root : CertsRoot) (m : CertMetadata) : Except String CertsRoot :=
  match m.Domains with
  | [] => .error "no domains in metadata"
  | p :: _ =>
    match storeRoot root p m with
    | none => .error "mkdir metadata dir failed"
    | some root2 => .ok root2

/-! ## CA resolver and clients (internal/ca/resolver.go) -/

/-- A resolved CA client: the Let's Encrypt scaffold or an enterprise
client bound to a server URL and HMAC credential pair. -/
inductive CAClient where
  | letsencrypt
  | enterprise (serverURL hmacID hmacKey : String)
deriving DecidableEq

/-- `Resolver.Resolve` (internal/ca): Let's Encrypt when `serverURL` is
empty; otherwise both HMAC fields must be non-empty. -/
def Resolve (serverURL hmacID hmacKey : String) : Except String CAClient :=
  if serverURL = "" then .ok .letsencrypt
  else if hmacID = "" ∨ hmacKey = "" then
    .error "hmac-id and hmac-key are required for enterprise CA"
  else .ok (.enterprise serverURL hmacID hmacKey)

/-- `CertificateMeta` (internal/ca): result of a successful CA request. -/
structure CertificateMeta where
  Domains : List String
  PEM     : String
  Key     : String
  Issuer  : String
deriving DecidableEq

/-- `RequestCertificate` of the two scaffold clients: the Let's Encrypt
client always succeeds with placeholder data; the enterprise client fails
only when its server URL is empty (unreachable via `Resolve`). -/
def RequestCertificate (c : CAClient) (domains : List String) :
    Except String CertificateMeta :=
  match c with
  | .letsencrypt =>
    .ok ⟨domains, "---BEGIN CERT---\n...", "---KEY---", "Let's Encrypt"⟩
  | .enterprise u _ _ =>
    if u = "" then .error "serverURL required for enterprise client"
    else .ok ⟨domains, "---BEGIN CERT ENTERPRISE---\n...", "---KEY---", "EnterpriseCA"⟩

/-- `InstallCertificate` (internal/ca): scaffold that only rejects a nil
certificate meta. -/
def InstallCertificate (meta : Option CertificateMeta) : Except String Unit :=
  match meta with
  | none => .error "nil certificate meta"
  | some _ => .ok ()

/-! ## Side-effect events and oracle environments -/

/-- Observable side effects of the flows, in execution order. -/
inductive Event where
  | mkdirE (path : String)
  | writeE (path content : String)
  | presentE (domain : String)
  | cleanupE (domain : String)
  | requestE
  | installE
  | metaWriteE (primary : String)
  | accountWriteE (ca : String)
deriving DecidableEq

/-- Oracles for the validation engine's external effects: outcome of each
DNS `Present` call, of the challenge-directory `os.MkdirAll`, and of each
token `os.WriteFile`. -/
structure ValEnv where
  presentOk : String → Bool
  mkOk      : Bool
  writeOk   : String → Bool

/-! ## Validation engine (internal/validation/validation.go) -/

/-- Fixed webroot used by `Validator.doHTTP` — a constant in the source,
independent of the request command's `--webroot` flag. -/
def httpBase : String := "/var/www/html/.well-known/acme-challenge"

/-- Challenge-token path written by `doHTTP` for a domain. -/
def tokenPath (d : String) : String := httpBase ++ "/" ++ d ++ ".token"

/-- Sequential token writes of `doHTTP`: each `os.WriteFile` is attempted
in order and the first failure aborts. -/
def writeTokens (env : ValEnv) : List String → Except String Unit × List Event
  | [] => (.ok (), [])
  | d :: ds =>
    if env.writeOk (tokenPath d) then
      let r := writeTokens env ds
      (r.1, .writeE (tokenPath d) "token-placeholder" :: r.2)
    else (.error "write token failed", [.writeE (tokenPath d) "token-placeholder"])

/-- `Validator.doHTTP`: create the fixed challenge directory, then write
`<domain>.token` with placeholder content for every domain. -/
def doHTTP (env : ValEnv) (domains : List String) :
    Except String Unit × List Event :=
  if env.mkOk then
    let r := writeTokens env domains
    (r.1, .mkdirE httpBase :: r.2)
  else (.error "mkdir challenge dir failed", [.mkdirE httpBase])

/-- `Validator.doDNS`: all `Present` calls are issued (concurrently in the
source — every call runs even when peers fail); if any failed, one
collected error is surfaced (modelled as the first failing domain in list
order; the source's choice among concurrent failures is unspecified).
Otherwise clean-up runs for every domain with errors swallowed. -/
def doDNS (env : ValEnv) (domains : List String) :
    Except String Unit × List Event :=
  match domains.find? (fun d => !env.presentOk d) with
  | some d =>
    (.error ("present failed for " ++ d), domains.map Event.presentE)
  | none =>
    (.ok (), domains.map Event.presentE ++ domains.map Event.cleanupE)

/-- `Validator.Validate` (internal/validation/validation.go): dispatch on
the validation type string — an exact, case-sensitive `switch`.
`hasProvider` models `v.dnsProvider != nil`. -/
def Validate (vtype : String) (hasProvider : Bool) (env : ValEnv)
    (domains : List String) : Except String Unit × List Event :=
  if vtype = "dns" then
    if hasProvider then doDNS env domains
    else (.error "dns provider not configured", [])
  else if vtype = "http" then doHTTP env domains
  else if vtype = "email" then
    (.error "email validation not implemented yet", [])
  else (.error ("unknown validation type: " ++ vtype), [])

/-! ## Renew flow (cmd/renew.go) -/

/-- Oracles for the renew flow: credential-permission check per directory,
plugin load per provider name, validation-engine oracles, metadata-write
outcome, metadata-root listing outcome, and the current time. -/
structure RenewEnv where
  credsOk : String → Bool
  pluginOk : String → Bool
  val : ValEnv
  storeOk : Bool
  listOk : Bool
  now : Nat

/-- `renewDomain` (cmd/renew.go): load the stored record, verify
credentials, resolve the CA from stored settings passing an empty HMAC
key, load the DNS plugin when the stored method is exactly "dns", validate,
request, install, then bump `LastRenewalAt`/`RenewalAttempts` and re-store
(a store failure is only a warning).  Returns the result, the new metadata
root and the event trace. -/
def renewDomain (env : RenewEnv) (root : CertsRoot) (domain : String) :
    Except String Unit × CertsRoot × List Event :=
  match Load root domain with
  | .error e => (.error ("failed to load metadata: " ++ e), root, [])
  | .ok meta =>
    if !env.credsOk meta.CredentialsPath then
      (.error "credentials check failed", root, [])
    else
      match Resolve meta.ServerURL meta.HMACIDCred "" with
      | .error e => (.error ("CA resolution failed: " ++ e), root, [])
      | .ok caClient =>
        -- DNS plugin loading, only for stored method exactly "dns"
        if meta.ValidationMethod = "dns" ∧ meta.DNSProvider = "" then
          (.error "dns validation configured but no dns_provider in metadata", root, [])
        else if meta.ValidationMethod = "dns" ∧ !env.pluginOk meta.DNSProvider then
          (.error "failed to load dns provider", root, [])
        else
          let hasProvider := meta.ValidationMethod = "dns"
          let v := Validate meta.ValidationMethod hasProvider env.val meta.Domains
          match v.1 with
          | .error e => (.error ("validation failed: " ++ e), root, v.2)
          | .ok _ =>
            match RequestCertificate caClient meta.Domains with
            | .error e =>
              (.error ("certificate request failed: " ++ e), root, v.2 ++ [.requestE])
            | .ok certMeta =>
              match InstallCertificate (some certMeta) with
              | .error e =>
                (.error ("installation failed: " ++ e), root,
                  v.2 ++ [.requestE, .installE])
              | .ok _ =>
                let meta2 := { meta with
                  LastRenewalAt := env.now,
                  RenewalAttempts := meta.RenewalAttempts + 1 }
                if env.storeOk then
                  match Store root meta2 with
                  | .ok root2 =>
                    (.ok (), root2,
                      v.2 ++ [.requestE, .installE,
                        .metaWriteE (meta2.Domains.headD "")])
                  | .error _ =>
                    -- store failure only warns; the flow still succeeds
                    (.ok (), root, v.2 ++ [.requestE, .installE])
                else (.ok (), root, v.2 ++ [.requestE, .installE])

/-- Loop body of `renewCmd`: run `renewDomain` per listed domain; a failed
domain is logged and iteration continues. -/
def renewLoop (env : RenewEnv) : CertsRoot → List String → CertsRoot × List Event
  | root, [] => (root, [])
  | root, d :: ds =>
    let r := renewDomain env root d
    let rest := renewLoop env r.2.1 ds
    (rest.1, r.2.2 ++ rest.2)

/-- `renewCmd` (cmd/renew.go): fail only when listing the metadata root
fails; with zero records succeed with a warning; otherwise iterate all
domains, isolating per-domain failures, and succeed. -/
def renewCmd (env : RenewEnv) (root : CertsRoot) :
    Except String Unit × CertsRoot × List Event :=
  if !env.listOk then (.error "failed to list certificates", root, [])
  else
    match ListAll root with
    | [] => (.ok (), root, [])
    | ds =>
      let r := renewLoop env root ds
      (.ok (), r.1, r.2)

/-! ## Request flow (requestCmd, plugins_src/cloudflare.go) -/

/-- Model of Go's `strings.ToLower` (character-wise lowercasing; the
method names involved are ASCII). -/
def lowerStr (s : String) : String := String.mk (s.data.map Char.toLower)

/-- Model of Go's `strings.Split` with a one-character separator. -/
def splitOnCharAux (sep : Char) : List Char → List Char → List String
  | [], acc => [String.mk acc.reverse]
  | c :: cs, acc =>
    if c = sep then String.mk acc.reverse :: splitOnCharAux sep cs []
    else splitOnCharAux sep cs (c :: acc)

def splitOnChar (sep : Char) (s : String) : List String :=
  splitOnCharAux sep s.data []

/-- Model of Go's `strings.TrimSpace`. -/
def trimStr (s : String) : String :=
  String.mk (((s.data.dropWhile Char.isWhitespace).reverse.dropWhile
    Char.isWhitespace).reverse)

/-- CLI flags of the `request` command. -/
structure ReqFlags where
  domains : String
  validation : String := ""
  dnsProvider : String := ""
  serverURL : String := ""
  hmacID : String := ""
  hmacKey : String := ""
  webroot : String := "/var/www/html"
  email : String := ""

/-- Oracles for the request flow's external effects. -/
structure ReqEnv where
  mkdirOk : String → Bool
  genOk   : Bool
  writeOk : String → Bool
  accountExists : Bool
  accountStoreOk : Bool
  credsOk : Bool
  pluginOk : String → Bool
  val : ValEnv
  storeOk : Bool
  now : Nat

/-- Fixed installation paths (cmd package constants). -/
def credentialsPath : String := "/opt/trustctl/credentials"

def certsPath : String := "/opt/trustctl/certs"

/-- `requestCmd.RunE` of the full request command
(plugins_src/cloudflare.go, `package cmd` section): parse domains, create
the certificate directory, generate and save key and CSR, pre-create the
HTTP challenge directory under the `--webroot` flag, check/create the CA
account, check credential permissions, resolve the CA, and only then — for
dns validation — require `--dns-provider`; then validate, request, save
the certificate, install, and persist metadata (store failure only
warns). -/
def requestCmd (flags : ReqFlags) (env : ReqEnv) (root : CertsRoot) :
    Except String Unit × CertsRoot × List Event :=
  if flags.domains = "" then (.error "--domains is required", root, [])
  else
    let domains := (splitOnChar ',' flags.domains).map trimStr
    let primary := domains.headD ""
    let certDir := certsPath ++ "/" ++ primary
    let keyPath := certDir ++ "/privkey.pem"
    let csrPath := certDir ++ "/csr.pem"
    if !env.mkdirOk certDir then
      (.error "mkdir cert dir failed", root, [.mkdirE certDir])
    else if !env.genOk then
      (.error "generate private key failed", root, [.mkdirE certDir])
    else
      -- SavePrivateKey: MkdirAll of the parent, then WriteFile
      let tr1 : List Event := [.mkdirE certDir, .mkdirE certDir,
        .writeE keyPath "PEM-KEY"]
      if !env.writeOk keyPath then
        (.error "save private key failed", root, tr1)
      else
        -- GenerateCSR fails only on an empty domain list (never here),
        -- SaveCSR: MkdirAll of the parent, then WriteFile
        let tr2 := tr1 ++ [.mkdirE certDir, .writeE csrPath "PEM-CSR"]
        if !env.writeOk csrPath then
          (.error "save csr failed", root, tr2)
        else
          -- HTTP-validation setup (runs when the lowered flag is "" or "http")
          let webroot := if flags.webroot = "" then "/var/www/html" else flags.webroot
          let challengeDir := webroot ++ "/.well-known/acme-challenge"
          let vlow := lowerStr flags.validation
          let tr3 := tr2 ++ (if vlow = "" ∨ vlow = "http" then [.mkdirE challengeDir] else [])
          if (vlow = "" ∨ vlow = "http") ∧ !env.mkdirOk challengeDir then
            (.error "mkdir challenge dir failed", root, tr3)
          else
            -- account check/creation
            let caName := if flags.serverURL = "" then "letsencrypt" else "enterprise-ca"
            let tr4 := tr3 ++ (if env.accountExists then []
              else [.mkdirE credentialsPath, .accountWriteE caName])
            if !env.accountExists ∧ !env.accountStoreOk then
              (.error "failed to store account", root, tr4)
            else if !env.credsOk then
              (.error "credentials permission check failed", root, tr4)
            else
              match Resolve flags.serverURL flags.hmacID flags.hmacKey with
              | .error e => (.error ("CA resolution failed: " ++ e), root, tr4)
              | .ok caClient =>
                let vtype := if vlow = "" then "http" else vlow
                if vtype = "dns" ∧ flags.dnsProvider = "" then
                  (.error "--dns-provider is required for dns validation", root, tr4)
                else if vtype = "dns" ∧ !env.pluginOk flags.dnsProvider then
                  (.error "failed to load dns provider", root, tr4)
                else
                  let hasProvider := vtype = "dns"
                  let v := Validate vtype hasProvider env.val domains
                  match v.1 with
                  | .error e =>
                    (.error ("validation failed: " ++ e), root, tr4 ++ v.2)
                  | .ok _ =>
                    match RequestCertificate caClient domains with
                    | .error e =>
                      (.error ("certificate request failed: " ++ e), root,
                        tr4 ++ v.2 ++ [.requestE])
                    | .ok certMeta =>
                      let fullchain := certDir ++ "/fullchain.pem"
                      let tr5 := tr4 ++ v.2 ++
                        [.requestE, .writeE fullchain certMeta.PEM]
                      if !env.writeOk fullchain then
                        (.error "save certificate failed", root, tr5)
                      else
                        match InstallCertificate (some certMeta) with
                        | .error e =>
                          (.error ("installation failed: " ++ e), root,
                            tr5 ++ [.installE])
                        | .ok _ =>
                          let meta : CertMetadata := {
                            Domains := domains,
                            ValidationMethod := vtype,
                            DNSProvider := flags.dnsProvider,
                            ServerURL := flags.serverURL,
                            HMACIDCred := flags.hmacID,
                            CredentialsPath := credentialsPath,
                            CertPath := fullchain,
                            KeyPath := keyPath,
                            IssuedAt := env.now,
                            RenewalAttempts := 0 }
                          if env.storeOk then
                            match Store root meta with
                            | .ok root2 =>
                              (.ok (), root2,
                                tr5 ++ [.installE, .metaWriteE primary])
                            | .error _ =>
                              (.ok (), root, tr5 ++ [.installE])
                          else (.ok (), root, tr5 ++ [.installE])

/-! ## Installer update path (internal/install/install.go)

The regex substitutions `updateNginxSSL`/`updateApacheSSL` use the
`(?m)^`-anchored patterns `^\s*ssl_certificate\s+\S+;`,
`^\s*ssl_certificate_key\s+\S+;`, `^\s*SSLCertificateFile\s+\S+` and
`^\s*SSLCertificateKeyFile\s+\S+` and replace every match with a fixed
replacement built from the new certificate/key path.  Configuration
content is modelled as a list of lines; because the patterns are anchored
at line starts at most one match occurs per line (the corner case of `\s`
spanning a newline is not modelled). -/

/-- The replacement text of a successful match (Go template
`"    LIT %s"` / `"    LIT %s;"`) followed by the unmatched remainder
`rest` of the line. -/
def repForm (lit : List Char) (semi : Bool) (path rest : List Char) : List Char :=
  "    ".data ++ (lit ++ ([' '] ++ (path ++ ((if semi then [';'] else []) ++ rest))))

/-- One `(?m)^\s*LIT\s+\S+(;)` substitution applied to a single line,
with Go's leftmost greedy backtracking: the `\S+` is the maximal
non-whitespace run, shortened (when a terminating `;` is required) to end
at that run's last semicolon.  Only the matched extent is replaced; the
rest of the line is kept. -/
def substLine (lit : List Char) (semi : Bool) (path : List Char)
    (l : List Char) : List Char :=
  match matchLit lit (l.dropWhile isWS) with
  | none => l
  | some afterLit =>
    match afterLit with
    | [] => l
    | c :: _ =>
      if isWS c then
        let afterWS := afterLit.dropWhile isWS
        let tok := afterWS.takeWhile (fun a => !isWS a)
        let tokRest := afterWS.dropWhile (fun a => !isWS a)
        if semi then
          match splitLastSemi tok with
          | some (A, B) =>
            if A = [] then l
            else repForm lit true path (B ++ tokRest)
          | none => l
        else
          if tok = [] then l
          else repForm lit false path tokRest
      else l

def nginxCertLit : List Char := "ssl_certificate".data

def nginxKeyLit : List Char := nginxCertLit ++ "_key".data

def apacheLitPre : List Char := "SSLCertificate".data

def apacheCertLit : List Char := apacheLitPre ++ "File".data

def apacheKeyLit : List Char := apacheLitPre ++ "KeyFile".data

/-- `updateNginxSSL` (internal/install/install.go): replace every
`ssl_certificate` directive, then every `ssl_certificate_key` directive
(the `domain` argument is unused in the source as well). -/
def updateNginxSSL (content : List (List Char)) (certPath keyPath domain : List Char) :
    List (List Char) :=
  (content.map (substLine nginxCertLit true certPath)).map
    (substLine nginxKeyLit true keyPath)

/-- `updateApacheSSL` (internal/install/install.go): replace every
`SSLCertificateFile` directive, then every `SSLCertificateKeyFile`
directive — these patterns have no terminating `;`. -/
def updateApacheSSL (content : List (List Char)) (certPath keyPath domain : List Char) :
    List (List Char) :=
  (content.map (substLine apacheCertLit false certPath)).map
    (substLine apacheKeyLit false keyPath)

/-- The update branch of `installNginxForDomain`/`installApacheForDomain`:
compute the substituted content; when it equals the existing content the
rewrite is skipped, otherwise `backupAndWriteFile` runs (backup copy,
temp-file write, rename) — the returned Bool records whether a rewrite
(backup + temp + rename) happened. -/
def sslUpdateStep (upd : List (List Char) → List (List Char))
    (s : List (List Char)) : List (List Char) × Bool :=
  let n := upd s
  if n = s then (s, false) else (n, true)

/-! ## Shared concrete fixtures for witnesses and counterexamples -/

def allOkVal : ValEnv :=
  { presentOk := fun _ => true, mkOk := true, writeOk := fun _ => true }

def allOkRenewEnv : RenewEnv :=
  { credsOk := fun _ => true, pluginOk := fun _ => true, val := allOkVal,
    storeOk := true, listOk := true, now := 100 }

def allOkReqEnv : ReqEnv :=
  { mkdirOk := fun _ => true, genOk := true, writeOk := fun _ => true,
    accountExists := false, accountStoreOk := true, credsOk := true,
    pluginOk := fun _ => true, val := allOkVal, storeOk := true, now := 50 }

/-- A stored record whose validation method always fails (email). -/
def metaEmail : CertMetadata :=
  { Domains := ["example.com"], ValidationMethod := "email",
    CredentialsPath := "/opt/trustctl/credentials" }

def rootEmail : CertsRoot := [.dir "example.com" (some (.wellFormed metaEmail))]

/-- A stored record of an enterprise-CA certificate (non-empty ServerURL). -/
def metaEnt : CertMetadata :=
  { Domains := ["ent.example.com"], ValidationMethod := "http",
    ServerURL := "https://ca.example", HMACIDCred := "hmac-id-cred",
    CredentialsPath := "/opt/trustctl/credentials" }

def rootEnt : CertsRoot := [.dir "ent.example.com" (some (.wellFormed metaEnt))]

/-- A stored record that renews successfully (http, default CA). -/
def metaHTTP : CertMetadata :=
  { Domains := ["example.com"], ValidationMethod := "http",
    CredentialsPath := "/opt/trustctl/credentials" }

def rootHTTP : CertsRoot := [.dir "example.com" (some (.wellFormed metaHTTP))]

/-! ## Claim C4 — request with dns validation and no provider -/

/-- Events that are none of the certificate operations the request flow
must not have performed yet when the dns-provider configuration error
fires: no CA request, no installation, no DNS challenge presentation or
clean-up, no metadata write, no challenge-token write. -/
def nonCertOp (ev : Event) : Prop :=
  ev ≠ .requestE ∧ ev ≠ .installE ∧ (∀ d, ev ≠ .presentE d) ∧
  (∀ d, ev ≠ .cleanupE d) ∧ (∀ p, ev ≠ .metaWriteE p) ∧
  (∀ p, ev ≠ .writeE p "token-placeholder")

/-- Flags of end-to-end scenario B: dns validation, no provider. -/
def flagsDNSNoProvider : ReqFlags := { domains := "example.com", validation := "dns" }

/-! ## Claim C10 — HTTP challenge tokens go to a fixed path -/

/-- The paths of challenge-token writes (writes with the fixed placeholder
content) in a trace. -/
def tokenWrites (tr : List Event) : List String :=
  tr.filterMap fun e =>
    match e with
    | .writeE p c => if c = "token-placeholder" then some p else none
    | _ => none

/-- Every token write in the trace targets the fixed
`/var/www/html/.well-known/acme-challenge/<domain>.token` path of one of
the given domains. -/
def TokOnly (ds : List String) (l : List Event) : Prop :=
  ∀ p ∈ tokenWrites l, ∃ d ∈ ds, p = tokenPath d

/-- Request-command flags with a custom webroot, used to witness that the
token write still lands under the fixed path. -/
def flagsCustomWebroot : ReqFlags :=
  { domains := "example.com", validation := "http", webroot := "/custom" }

/-! ## Claim C9 — idempotence of the nginx/apache update path -/

/-- An apache vhost file already updated once (listen-80 block, matching
ServerName, a 443 block with SSL directive lines). -/
def apacheVhost : List (List Char) :=
  ["<VirtualHost *:80>".data,
   "ServerName d.example.com".data,
   "</VirtualHost>".data,
   "<VirtualHost *:443>".data,
   "ServerName d.example.com".data,
   "SSLCertificateFile /old.pem".data,
   "SSLCertificateKeyFile /old.key".data,
   "</VirtualHost>".data]

/-- A certificate path containing a space. -/
def certWithSpace : List Char := "/opt/a b.pem".data

def keyPlain : List Char := "/opt/new.key".data

def domArg : List Char := "d.example.com".data

/-- An nginx vhost file with both an HTTP and an HTTPS server block. -/
def nginxVhost : List (List Char) :=
  ["server \x7b".data,
   "    listen 80;".data,
   "    server_name d.example.com;".data,
   "\x7d".data,
   "server \x7b".data,
   "    listen 443 ssl;".data,
   "    server_name d.example.com;".data,
   "    ssl_certificate /old.pem;".data,
   "    ssl_certificate_key /old.key;".data,
   "\x7d".data]

def certPlain : List Char := "/opt/new.pem".data

/-! ## Theorems -/
theorem matchLit_self_app (lit rest : List Char) :
    matchLit lit (lit ++ rest) = some rest := by
  induction lit with
  | nil => simp [matchLit]
  | cons c cs ih => simp [matchLit, ih]

theorem matchLit_app_left (p a b : List Char) :
    matchLit (p ++ a) (p ++ b) = matchLit a b := by
  induction p with
  | nil => rfl
  | cons c cs ih => simp [matchLit, ih]

theorem splitLastSemi_eq_none {t : List Char} (h : ';' ∉ t) :
    splitLastSemi t = none := by
  induction t with
  | nil => rfl
  | cons c cs ih =>
    simp only [List.mem_cons, not_or] at h
    simp [splitLastSemi, ih h.2, Ne.symm h.1, h.1]

theorem splitLastSemi_app (A B : List Char) (hB : ';' ∉ B) :
    splitLastSemi (A ++ ';' :: B) = some (A, B) := by
  induction A with
  | nil => simp [splitLastSemi, splitLastSemi_eq_none hB]
  | cons c cs ih => simp [splitLastSemi, ih]

theorem not_mem_of_splitLastSemi_eq_none :
    ∀ {t : List Char}, splitLastSemi t = none → ';' ∉ t
  | [] => by simp
  | c :: cs => by
    simp only [splitLastSemi]
    match hrec : splitLastSemi cs with
    | some (a, b) => simp
    | none =>
      by_cases hc : c = ';'
      · simp [hc]
      · simp only [hc, if_false, List.mem_cons, not_or]
        intro _
        exact ⟨fun h => hc h.symm, not_mem_of_splitLastSemi_eq_none hrec⟩

theorem splitLastSemi_sound :
    ∀ {t A B : List Char}, splitLastSemi t = some (A, B) →
      t = A ++ ';' :: B ∧ ';' ∉ B
  | [], A, B => by simp [splitLastSemi]
  | c :: cs, A, B => by
    simp only [splitLastSemi]
    match hrec : splitLastSemi cs with
    | some (a, b) =>
      intro h
      obtain ⟨h1, h2⟩ := splitLastSemi_sound hrec
      simp only [Option.some.injEq, Prod.mk.injEq] at h
      refine ⟨?_, ?_⟩
      · rw [← h.1, ← h.2, h1]; rfl
      · rw [← h.2]; exact h2
    | none =>
      by_cases hc : c = ';'
      · subst hc
        intro h
        rw [if_pos rfl] at h
        injection h with h
        injection h with h1 h2
        subst h1; subst h2
        exact ⟨rfl, not_mem_of_splitLastSemi_eq_none hrec⟩
      · simp [hc]

/-! ### List-scanning lemmas for the substitution model -/

theorem takeWhile_app_of_all {α} {p : α → Bool} :
    ∀ {xs : List α} (ys : List α), (∀ a ∈ xs, p a = true) →
      (xs ++ ys).takeWhile p = xs ++ ys.takeWhile p
  | [], ys, _ => by simp
  | x :: xs, ys, h => by
    have hx : p x = true := h x (by simp)
    simp only [List.cons_append, List.takeWhile_cons_of_pos hx, List.cons.injEq,
      true_and]
    exact takeWhile_app_of_all ys (fun a ha => h a (by simp [ha]))

theorem dropWhile_app_of_all {α} {p : α → Bool} :
    ∀ {xs : List α} (ys : List α), (∀ a ∈ xs, p a = true) →
      (xs ++ ys).dropWhile p = ys.dropWhile p
  | [], ys, _ => by simp
  | x :: xs, ys, h => by
    have hx : p x = true := h x (by simp)
    simp only [List.cons_append, List.dropWhile_cons_of_pos hx]
    exact dropWhile_app_of_all ys (fun a ha => h a (by simp [ha]))

theorem takeWhile_eq_nil_of_head {α} {p : α → Bool} {xs : List α}
    (h : xs = [] ∨ ∃ c cs, xs = c :: cs ∧ p c = false) :
    xs.takeWhile p = [] := by
  rcases h with rfl | ⟨c, cs, rfl, hc⟩
  · rfl
  · simp [List.takeWhile_cons, hc]

theorem dropWhile_eq_self_of_head {α} {p : α → Bool} {xs : List α}
    (h : xs = [] ∨ ∃ c cs, xs = c :: cs ∧ p c = false) :
    xs.dropWhile p = xs := by
  rcases h with rfl | ⟨c, cs, rfl, hc⟩
  · rfl
  · simp [List.dropWhile_cons, hc]

theorem mem_of_takeWhile {α} {p : α → Bool} :
    ∀ {xs : List α} {a : α}, a ∈ xs.takeWhile p → p a = true
  | [], a => by simp
  | x :: xs, a => by
    by_cases hx : p x = true
    · simp only [List.takeWhile_cons_of_pos hx, List.mem_cons]
      rintro (rfl | h)
      · exact hx
      · exact mem_of_takeWhile h
    · simp [List.takeWhile_cons_of_neg hx]

theorem dropWhile_head_cases {α} (p : α → Bool) (xs : List α) :
    xs.dropWhile p = [] ∨
      ∃ c cs, xs.dropWhile p = c :: cs ∧ p c = false := by
  induction xs with
  | nil => left; rfl
  | cons x xs ih =>
    by_cases hx : p x = true
    · simpa [List.dropWhile_cons_of_pos hx] using ih
    · right
      exact ⟨x, xs, by simp [List.dropWhile_cons, hx],
        by simpa using hx⟩

theorem spaces_all_ws : ∀ c ∈ "    ".data, isWS c = true := by decide

/-! ### Shape of `substLine` results -/

theorem substLine_cases (lit : List Char) (semi : Bool) (path l : List Char) :
    substLine lit semi path l = l ∨
      ∃ B rst, substLine lit semi path l = repForm lit semi path (B ++ rst) ∧
        (∀ c ∈ B, isWS c = false) ∧ ';' ∉ B ∧ (semi = false → B = []) ∧
        (rst = [] ∨ ∃ c cs, rst = c :: cs ∧ isWS c = true) := by
  unfold substLine
  match hm : matchLit lit (l.dropWhile isWS) with
  | none => left; rfl
  | some afterLit =>
    match afterLit with
    | [] => left; rfl
    | c :: cs =>
      by_cases hc : isWS c = true
      · simp only [hc, if_true]
        set afterWS := ((c :: cs).dropWhile isWS) with hAW
        set tok := afterWS.takeWhile (fun a => !isWS a) with hTok
        set tokRest := afterWS.dropWhile (fun a => !isWS a) with hTR
        have htokw : ∀ a ∈ tok, isWS a = false := by
          intro a ha
          have := mem_of_takeWhile ha
          simpa using this
        have htr : tokRest = [] ∨ ∃ d ds, tokRest = d :: ds ∧ isWS d = true := by
          rcases dropWhile_head_cases (fun a => !isWS a) afterWS with h0 | ⟨d, ds, hd, hdf⟩
          · left; exact h0
          · right; exact ⟨d, ds, hd, by simpa using hdf⟩
        cases semi with
        | true =>
          match hs : splitLastSemi tok with
          | some (A, B) =>
            by_cases hA : A = []
            · simp only [hs, hA, if_true]; left; trivial
            · simp only [hs, if_neg hA]
              right
              obtain ⟨hts, hBs⟩ := splitLastSemi_sound hs
              refine ⟨B, tokRest, rfl, ?_, hBs, by simp, htr⟩
              intro a ha
              exact htokw a (by rw [hts]; simp [ha])
          | none => simp only [hs]; left; trivial
        | false =>
          by_cases ht : tok = []
          · simp only [ht, if_true]; left; trivial
          · simp only [if_neg ht]
            right
            exact ⟨[], tokRest, rfl, by simp, by simp, fun _ => rfl, htr⟩
      · simp only [hc, if_false]; left; trivial

theorem substLine_noop_of_none {lit semi path l}
    (h : matchLit lit (l.dropWhile isWS) = none) :
    substLine lit semi path l = l := by
  unfold substLine
  rw [h]

theorem substLine_noop_of_nonws {lit semi path l c cs}
    (h : matchLit lit (l.dropWhile isWS) = some (c :: cs))
    (hc : isWS c = false) :
    substLine lit semi path l = l := by
  unfold substLine
  rw [h]
  simp [hc]

/-- A line already in replaced form is a fixed point of the same
substitution, provided the path is non-empty and whitespace-free. -/
theorem substLine_repForm (lit : List Char) (semi : Bool) (path B rst : List Char)
    (hlit : ∃ c cs, lit = c :: cs ∧ isWS c = false)
    (hpath : path ≠ []) (hpathw : ∀ c ∈ path, isWS c = false)
    (hB : ∀ c ∈ B, isWS c = false) (hBsemi : ';' ∉ B)
    (hB0 : semi = false → B = [])
    (hrst : rst = [] ∨ ∃ c cs, rst = c :: cs ∧ isWS c = true) :
    substLine lit semi path (repForm lit semi path (B ++ rst)) =
      repForm lit semi path (B ++ rst) := by
  obtain ⟨lc, lcs, hl, hlc⟩ := hlit
  obtain ⟨pc, pcs, hp⟩ : ∃ pc pcs, path = pc :: pcs := by
    cases path with
    | nil => exact absurd rfl hpath
    | cons pc pcs => exact ⟨pc, pcs, rfl⟩
  have hpc : isWS pc = false := hpathw pc (by rw [hp]; simp)
  have hrstB : rst = [] ∨ ∃ c cs, rst = c :: cs ∧ (fun a => !isWS a) c = false := by
    rcases hrst with h0 | ⟨d, ds, hd, hdt⟩
    · left; exact h0
    · right; exact ⟨d, ds, hd, by simp [hdt]⟩
  have hrstTake : rst.takeWhile (fun a => !isWS a) = [] :=
    takeWhile_eq_nil_of_head hrstB
  have hrstDrop : rst.dropWhile (fun a => !isWS a) = rst :=
    dropWhile_eq_self_of_head hrstB
  cases semi with
  | true =>
    have h1 : (repForm lit true path (B ++ rst)).dropWhile isWS =
        lit ++ ([' '] ++ (path ++ ([';'] ++ (B ++ rst)))) := by
      unfold repForm
      rw [if_pos rfl, dropWhile_app_of_all _ spaces_all_ws]
      exact dropWhile_eq_self_of_head
        (Or.inr ⟨lc, lcs ++ ([' '] ++ (path ++ ([';'] ++ (B ++ rst)))),
          by rw [hl]; simp, hlc⟩)
    have h2 : (path ++ ';' :: (B ++ rst)).dropWhile isWS =
        path ++ ';' :: (B ++ rst) :=
      dropWhile_eq_self_of_head
        (Or.inr ⟨pc, pcs ++ ';' :: (B ++ rst), by rw [hp]; simp, hpc⟩)
    have h3 : (path ++ ';' :: (B ++ rst)).takeWhile (fun a => !isWS a) =
        path ++ ';' :: B := by
      rw [takeWhile_app_of_all _ (fun a ha => by simp [hpathw a ha])]
      rw [List.takeWhile_cons_of_pos (by decide)]
      rw [takeWhile_app_of_all _ (fun a ha => by simp [hB a ha]), hrstTake]
      simp
    have h4 : (path ++ ';' :: (B ++ rst)).dropWhile (fun a => !isWS a) =
        rst := by
      rw [dropWhile_app_of_all _ (fun a ha => by simp [hpathw a ha])]
      rw [List.dropWhile_cons_of_pos (by decide)]
      rw [dropWhile_app_of_all _ (fun a ha => by simp [hB a ha]), hrstDrop]
    unfold substLine
    rw [h1, matchLit_self_app]
    simp only [List.singleton_append]
    rw [List.dropWhile_cons_of_pos (by decide : isWS ' ' = true)]
    simp only [show isWS ' ' = true from by decide, if_true]
    rw [h2, h3, h4, splitLastSemi_app path B hBsemi]
    simp [hpath]
  | false =>
    have hBnil : B = [] := hB0 rfl
    subst hBnil
    simp only [List.nil_append] at *
    have h1 : (repForm lit false path rst).dropWhile isWS =
        lit ++ ([' '] ++ (path ++ rst)) := by
      unfold repForm
      rw [if_neg (by simp), List.nil_append,
        dropWhile_app_of_all _ spaces_all_ws]
      exact dropWhile_eq_self_of_head
        (Or.inr ⟨lc, lcs ++ ([' '] ++ (path ++ rst)), by rw [hl]; simp, hlc⟩)
    have h2 : (path ++ rst).dropWhile isWS = path ++ rst :=
      dropWhile_eq_self_of_head
        (Or.inr ⟨pc, pcs ++ rst, by rw [hp]; simp, hpc⟩)
    have h3 : (path ++ rst).takeWhile (fun a => !isWS a) = path := by
      rw [takeWhile_app_of_all _ (fun a ha => by simp [hpathw a ha]), hrstTake]
      simp
    have h4 : (path ++ rst).dropWhile (fun a => !isWS a) = rst := by
      rw [dropWhile_app_of_all _ (fun a ha => by simp [hpathw a ha]), hrstDrop]
    unfold substLine
    rw [h1, matchLit_self_app]
    simp only [List.singleton_append]
    rw [List.dropWhile_cons_of_pos (by decide : isWS ' ' = true)]
    simp only [show isWS ' ' = true from by decide, if_true]
    rw [h2, h3, h4, if_neg hpath]
    simp

/-- Leading-whitespace strip of a replaced line exposes the literal. -/
theorem repForm_dropWhile (lit : List Char) (semi : Bool) (path rest : List Char)
    (hlit : ∃ c cs, lit = c :: cs ∧ isWS c = false) :
    (repForm lit semi path rest).dropWhile isWS =
      lit ++ ([' '] ++ (path ++ ((if semi then [';'] else []) ++ rest))) := by
  obtain ⟨lc, lcs, hl, hlc⟩ := hlit
  unfold repForm
  rw [dropWhile_app_of_all _ spaces_all_ws]
  exact dropWhile_eq_self_of_head
    (Or.inr ⟨lc, lcs ++ ([' '] ++ (path ++ ((if semi then [';'] else []) ++ rest))),
      by rw [hl]; simp, hlc⟩)

/-- Substituting a literal `pre ++ a` is a no-op on a line whose
whitespace-stripped form is `pre ++ W` when `a` and `W` differ at their
first character. -/
theorem substLine_noop_mismatch {pre a W : List Char} {ea w0 : Char}
    {as ws : List Char} (semi : Bool) (q : List Char) {l : List Char}
    (hdrop : l.dropWhile isWS = pre ++ W)
    (ha : a = ea :: as) (hW : W = w0 :: ws) (hne : w0 ≠ ea) :
    substLine (pre ++ a) semi q l = l := by
  apply substLine_noop_of_none
  rw [hdrop, matchLit_app_left, ha, hW]
  simp [matchLit, hne]

/-- Substituting a literal is a no-op when the character right after the
matched literal is not whitespace (the `\s+` of the pattern fails). -/
theorem substLine_noop_after {litS W : List Char} {w0 : Char} {ws : List Char}
    (semi : Bool) (q : List Char) {l : List Char}
    (hdrop : l.dropWhile isWS = litS ++ W)
    (hW : W = w0 :: ws) (hw : isWS w0 = false) :
    substLine litS semi q l = l := by
  exact substLine_noop_of_nonws (by rw [hdrop, hW, matchLit_self_app]) hw

theorem nginxCertLit_head : ∃ c cs, nginxCertLit = c :: cs ∧ isWS c = false :=
  ⟨'s', "sl_certificate".data, rfl, by decide⟩

theorem nginxKeyLit_head : ∃ c cs, nginxKeyLit = c :: cs ∧ isWS c = false :=
  ⟨'s', "sl_certificate".data ++ "_key".data, rfl, by decide⟩

theorem apacheCertLit_head : ∃ c cs, apacheCertLit = c :: cs ∧ isWS c = false :=
  ⟨'S', "SLCertificate".data ++ "File".data, rfl, by decide⟩

theorem apacheKeyLit_head : ∃ c cs, apacheKeyLit = c :: cs ∧ isWS c = false :=
  ⟨'S', "SLCertificate".data ++ "KeyFile".data, rfl, by decide⟩

/-- The `ssl_certificate` substitution does not touch a replaced
`ssl_certificate_key` line (the pattern's `\s+` fails on `_`). -/
theorem nginx_cert_noop_on_keyrep (cert key X : List Char) :
    substLine nginxCertLit true cert (repForm nginxKeyLit true key X) =
      repForm nginxKeyLit true key X := by
  have hdrop := repForm_dropWhile nginxKeyLit true key X nginxKeyLit_head
  rw [show (nginxKeyLit : List Char) = nginxCertLit ++ "_key".data from rfl,
    List.append_assoc] at hdrop
  exact substLine_noop_after true cert hdrop rfl (by decide)

/-- The `ssl_certificate_key` substitution does not touch a replaced
`ssl_certificate` line (`' '` vs `'_'` mismatch after the stem). -/
theorem nginx_key_noop_on_certrep (cert key X : List Char) :
    substLine nginxKeyLit true key (repForm nginxCertLit true cert X) =
      repForm nginxCertLit true cert X := by
  have hdrop := repForm_dropWhile nginxCertLit true cert X nginxCertLit_head
  exact substLine_noop_mismatch true key hdrop rfl rfl (by decide)

/-- The `SSLCertificateKeyFile` substitution does not touch a replaced
`SSLCertificateFile` line (`'F'` vs `'K'` mismatch after the stem). -/
theorem apache_key_noop_on_certrep (cert key X : List Char) :
    substLine apacheKeyLit false key (repForm apacheCertLit false cert X) =
      repForm apacheCertLit false cert X := by
  have hdrop := repForm_dropWhile apacheCertLit false cert X apacheCertLit_head
  rw [show (apacheCertLit : List Char) = apacheLitPre ++ "File".data from rfl,
    List.append_assoc] at hdrop
  exact substLine_noop_mismatch false key hdrop rfl rfl (by decide)

/-- The `SSLCertificateFile` substitution does not touch a replaced
`SSLCertificateKeyFile` line (`'K'` vs `'F'` mismatch after the stem). -/
theorem apache_cert_noop_on_keyrep (cert key X : List Char) :
    substLine apacheCertLit false cert (repForm apacheKeyLit false key X) =
      repForm apacheKeyLit false key X := by
  have hdrop := repForm_dropWhile apacheKeyLit false key X apacheKeyLit_head
  rw [show (apacheKeyLit : List Char) = apacheLitPre ++ "KeyFile".data from rfl,
    List.append_assoc] at hdrop
  exact substLine_noop_mismatch false cert hdrop rfl rfl (by decide)

/-- One cert-then-key substitution pass over a single nginx line is
idempotent for non-empty whitespace-free paths. -/
theorem nginxLine_idem (cert key : List Char)
    (hc : cert ≠ []) (hcw : ∀ c ∈ cert, isWS c = false)
    (hk : key ≠ []) (hkw : ∀ c ∈ key, isWS c = false) (l : List Char) :
    substLine nginxKeyLit true key (substLine nginxCertLit true cert
      (substLine nginxKeyLit true key (substLine nginxCertLit true cert l))) =
    substLine nginxKeyLit true key (substLine nginxCertLit true cert l) := by
  rcases substLine_cases nginxCertLit true cert l with
    hC | ⟨B, rst, hC, hBw, hBs, _, hrst⟩
  · rcases substLine_cases nginxKeyLit true key l with
      hK | ⟨B', rst', hK, hB'w, hB's, _, hrst'⟩
    · rw [hC, hK, hC, hK]
    · rw [hC, hK, nginx_cert_noop_on_keyrep]
      exact substLine_repForm nginxKeyLit true key B' rst' nginxKeyLit_head
        hk hkw hB'w hB's (by intro h; exact absurd h (by decide)) hrst'
  · rw [hC, nginx_key_noop_on_certrep]
    rw [substLine_repForm nginxCertLit true cert B rst nginxCertLit_head
      hc hcw hBw hBs (by intro h; exact absurd h (by decide)) hrst]
    rw [nginx_key_noop_on_certrep]

/-- One cert-then-key substitution pass over a single apache line is
idempotent for non-empty whitespace-free paths. -/
theorem apacheLine_idem (cert key : List Char)
    (hc : cert ≠ []) (hcw : ∀ c ∈ cert, isWS c = false)
    (hk : key ≠ []) (hkw : ∀ c ∈ key, isWS c = false) (l : List Char) :
    substLine apacheKeyLit false key (substLine apacheCertLit false cert
      (substLine apacheKeyLit false key (substLine apacheCertLit false cert l))) =
    substLine apacheKeyLit false key (substLine apacheCertLit false cert l) := by
  rcases substLine_cases apacheCertLit false cert l with
    hC | ⟨B, rst, hC, hBw, hBs, hB0, hrst⟩
  · rcases substLine_cases apacheKeyLit false key l with
      hK | ⟨B', rst', hK, hB'w, hB's, hB'0, hrst'⟩
    · rw [hC, hK, hC, hK]
    · rw [hC, hK, apache_cert_noop_on_keyrep]
      have hB'nil : B' = [] := hB'0 rfl
      subst hB'nil
      exact substLine_repForm apacheKeyLit false key [] rst' apacheKeyLit_head
        hk hkw (by simp) (by simp) (fun _ => rfl) hrst'
  · have hBnil : B = [] := hB0 rfl
    subst hBnil
    rw [hC, apache_key_noop_on_certrep]
    rw [substLine_repForm apacheCertLit false cert [] rst apacheCertLit_head
      hc hcw (by simp) (by simp) (fun _ => rfl) hrst]
    rw [apache_key_noop_on_certrep]

theorem updateNginxSSL_idem (content : List (List Char)) (cert key domain : List Char)
    (hc : cert ≠ []) (hcw : ∀ c ∈ cert, isWS c = false)
    (hk : key ≠ []) (hkw : ∀ c ∈ key, isWS c = false) :
    updateNginxSSL (updateNginxSSL content cert key domain) cert key domain =
      updateNginxSSL content cert key domain := by
  unfold updateNginxSSL
  rw [List.map_map, List.map_map, List.map_map, List.map_map]
  apply List.map_congr_left
  intro l _
  exact nginxLine_idem cert key hc hcw hk hkw l

theorem updateApacheSSL_idem (content : List (List Char)) (cert key domain : List Char)
    (hc : cert ≠ []) (hcw : ∀ c ∈ cert, isWS c = false)
    (hk : key ≠ []) (hkw : ∀ c ∈ key, isWS c = false) :
    updateApacheSSL (updateApacheSSL content cert key domain) cert key domain =
      updateApacheSSL content cert key domain := by
  unfold updateApacheSSL
  rw [List.map_map, List.map_map, List.map_map, List.map_map]
  apply List.map_congr_left
  intro l _
  exact apacheLine_idem cert key hc hcw hk hkw l

/-! ## Claim C6 — CA resolver contract -/

/-- C6: `Resolve` with an empty server URL always returns the default
(Let's Encrypt) client, ignoring the HMAC arguments; with a non-empty
server URL it fails with the missing-credentials error whenever either
HMAC field is empty, and otherwise returns an enterprise client bound to
exactly that server URL and credential pair. -/
theorem C6_resolve_contract (url id key : String) :
    (url = "" → Resolve url id key = .ok .letsencrypt) ∧
    (url ≠ "" → (id = "" ∨ key = "") →
      Resolve url id key =
        .error "hmac-id and hmac-key are required for enterprise CA") ∧
    (url ≠ "" → id ≠ "" → key ≠ "" →
      Resolve url id key = .ok (.enterprise url id key)) := by
  refine ⟨fun h => by simp [Resolve, h], fun h1 h2 => ?_, fun h1 h2 h3 => ?_⟩
  · unfold Resolve
    rw [if_neg h1, if_pos h2]
  · unfold Resolve
    rw [if_neg h1, if_neg (by push_neg; exact ⟨h2, h3⟩)]

theorem C6_resolve_contract_witness :
    Resolve "" "a" "b" = .ok .letsencrypt ∧
    Resolve "https://ca.example" "a" "" =
      .error "hmac-id and hmac-key are required for enterprise CA" ∧
    Resolve "https://ca.example" "a" "b" =
      .ok (.enterprise "https://ca.example" "a" "b") :=
  ⟨(C6_resolve_contract "" "a" "b").1 rfl,
   (C6_resolve_contract "https://ca.example" "a" "").2.1 (by decide)
     (Or.inr rfl),
   (C6_resolve_contract "https://ca.example" "a" "b").2.2 (by decide)
     (by decide) (by decide)⟩

/-! ## Claim C7 — ListAll and malformed records -/

/-- C7 counterexample: a domain directory containing a malformed
`metadata.json` IS returned by `ListAll` (only `os.Stat` existence is
checked), although loading it fails. -/
theorem C7_counterexample :
    ListAll [RootEntry.dir "bad.example.com" (some .malformed)] =
      ["bad.example.com"] ∧
    Load [RootEntry.dir "bad.example.com" (some .malformed)]
      "bad.example.com" = .error "unmarshal metadata.json failed" := by
  constructor <;> rfl

/-- C7 (amended): `ListAll` returns exactly the domains that have a
subdirectory under the metadata root containing a `metadata.json` file,
in directory-listing order; whether the file parses is not checked. -/
theorem C7_listAll_membership (root : CertsRoot) (d : String) :
    d ∈ ListAll root ↔ ∃ f, RootEntry.dir d (some f) ∈ root := by
  unfold ListAll
  rw [List.mem_filterMap]
  constructor
  · rintro ⟨e, he, hsome⟩
    match e with
    | .dir n (some f) =>
      refine ⟨f, ?_⟩
      simp only [Option.some.injEq] at hsome
      rwa [hsome] at he
    | .dir n none => simp at hsome
    | .plain n => simp at hsome
  · rintro ⟨f, hf⟩
    exact ⟨.dir d (some f), hf, rfl⟩

/-! ## Claim C8 — metadata store round-trip -/

theorem storeRoot_findDir (p : String) (m : CertMetadata) :
    ∀ root : CertsRoot, (∀ n, RootEntry.plain n ∈ root → n ≠ p) →
      ∃ root2, storeRoot root p m = some root2 ∧
        findDir root2 p = some (some (.wellFormed m))
  | [], _ => ⟨[.dir p (some (.wellFormed m))], rfl, by simp [findDir]⟩
  | .dir n f :: es, h => by
    by_cases hn : n = p
    · exact ⟨.dir n (some (.wellFormed m)) :: es, by simp [storeRoot, hn],
        by simp [findDir, hn]⟩
    · obtain ⟨r2, hr2, hfind⟩ :=
        storeRoot_findDir p m es (fun n' hn' => h n' (by simp [hn']))
      exact ⟨.dir n f :: r2, by simp [storeRoot, hn, hr2],
        by simp [findDir, hn, hfind]⟩
  | .plain n :: es, h => by
    have hn : n ≠ p := h n (by simp)
    obtain ⟨r2, hr2, hfind⟩ :=
      storeRoot_findDir p m es (fun n' hn' => h n' (by simp [hn']))
    exact ⟨.plain n :: r2, by simp [storeRoot, hn, hr2],
      by simp [findDir, hfind]⟩

/-- C8: storing a record with a non-empty domain set and loading by its
primary domain round-trips to an identical record (provided no
non-directory entry shadows the primary's directory name); storing a
record with no domains fails with the empty-domain-set error and leaves
the root unchanged. -/
theorem C8_store_load_roundtrip :
    (∀ (root : CertsRoot) (m : CertMetadata) (p : String) (ds : List String),
      m.Domains = p :: ds →
      (∀ n, RootEntry.plain n ∈ root → n ≠ p) →
      ∃ root2, Store root m = .ok root2 ∧ Load root2 p = .ok m) ∧
    (∀ (root : CertsRoot) (m : CertMetadata), m.Domains = [] →
      Store root m = .error "no domains in metadata") := by
  constructor
  · intro root m p ds hd hplain
    obtain ⟨root2, hstore, hfind⟩ := storeRoot_findDir p m root hplain
    refine ⟨root2, ?_, ?_⟩
    · unfold Store
      rw [hd]
      simp [hstore]
    · unfold Load
      rw [hfind]
  · intro root m hd
    unfold Store
    rw [hd]

theorem C8_store_load_roundtrip_witness :
    (∃ root2, Store [] metaHTTP = .ok root2 ∧
      Load root2 "example.com" = .ok metaHTTP) ∧
    Store [] { Domains := [], ValidationMethod := "http" } =
      .error "no domains in metadata" :=
  ⟨C8_store_load_roundtrip.1 [] metaHTTP "example.com" [] rfl (by simp),
   C8_store_load_roundtrip.2 [] _ rfl⟩

/-! ## Claim C5 — validation method dispatch -/

/-- C5 counterexample: the Validator's `switch` is case-SENSITIVE — the
method name "DNS" does not select the dns method (as a case-insensitive
match would) but falls through to the unknown-validation-method error;
the same call with "dns" succeeds. -/
theorem C5_counterexample :
    (Validate "DNS" true allOkVal ["example.com"]).1 =
      .error "unknown validation type: DNS" ∧
    (Validate "dns" true allOkVal ["example.com"]).1 = .ok () := by
  constructor <;> rfl

/-- C5 (amended): the Validator dispatches by exact case-sensitive match —
dns without a provider fails with provider-not-configured, email always
fails as not implemented, and every other name (including mere case
variants such as "DNS") fails with the unknown-validation-method error;
case-insensitivity holds only at the request-command boundary, which
lowercases the flag before constructing the Validator. -/
theorem C5_validate_dispatch :
    (∀ (env : ValEnv) (ds : List String),
      Validate "dns" false env ds = (.error "dns provider not configured", [])) ∧
    (∀ (env : ValEnv) (hp : Bool) (ds : List String),
      Validate "email" hp env ds =
        (.error "email validation not implemented yet", [])) ∧
    (∀ (v : String) (env : ValEnv) (hp : Bool) (ds : List String),
      v ≠ "dns" → v ≠ "http" → v ≠ "email" →
      Validate v hp env ds = (.error ("unknown validation type: " ++ v), [])) ∧
    (∀ (flags : ReqFlags) (env : ReqEnv) (root : CertsRoot) (s t : String),
      lowerStr s = lowerStr t →
      requestCmd { flags with validation := s } env root =
        requestCmd { flags with validation := t } env root) := by
  refine ⟨fun env ds => rfl, fun env hp ds => rfl, fun v env hp ds h1 h2 h3 => ?_,
    fun flags env root s t h => ?_⟩
  · unfold Validate
    rw [if_neg h1, if_neg h2, if_neg h3]
  · unfold requestCmd
    dsimp only
    rw [h]

theorem C5_validate_dispatch_witness :
    Validate "smtp" true allOkVal ["example.com"] =
      (.error "unknown validation type: smtp", []) ∧
    requestCmd { domains := "example.com", validation := "DNS" } allOkReqEnv [] =
      requestCmd { domains := "example.com", validation := "dns" } allOkReqEnv [] :=
  ⟨C5_validate_dispatch.2.2.1 "smtp" allOkVal true ["example.com"]
      (by decide) (by decide) (by decide),
   C5_validate_dispatch.2.2.2 { domains := "example.com" } allOkReqEnv []
      "DNS" "dns" (by decide)⟩

/-! ## Claim C2 — enterprise certificates can never be renewed -/

/-- C2: for every stored record with a non-empty ServerURL, `renewDomain`
passes the stored HMAC id credential and an empty HMAC key to `Resolve`,
which rejects any non-empty server URL with an empty HMAC key — so the
domain always fails (at the CA-resolution step when the credentials check
passes), with no state change and no certificate operation performed. -/
theorem C2_enterprise_renewal_always_fails (env : RenewEnv) (root : CertsRoot)
    (d : String) (meta : CertMetadata)
    (hload : Load root d = .ok meta) (hurl : meta.ServerURL ≠ "") :
    Resolve meta.ServerURL meta.HMACIDCred "" =
      .error "hmac-id and hmac-key are required for enterprise CA" ∧
    (∃ e, (renewDomain env root d).1 = .error e) ∧
    (renewDomain env root d).2.1 = root ∧
    (renewDomain env root d).2.2 = [] := by
  have hres : Resolve meta.ServerURL meta.HMACIDCred "" =
      .error "hmac-id and hmac-key are required for enterprise CA" := by
    unfold Resolve
    rw [if_neg hurl, if_pos (Or.inr rfl)]
  refine ⟨hres, ?_⟩
  unfold renewDomain
  rw [hload]
  dsimp only
  by_cases hcr : env.credsOk meta.CredentialsPath
  · rw [if_neg (by simp [hcr]), hres]
    exact ⟨⟨_, rfl⟩, rfl, rfl⟩
  · rw [if_pos (by simp [hcr])]
    exact ⟨⟨_, rfl⟩, rfl, rfl⟩

theorem C2_enterprise_renewal_always_fails_witness :
    Resolve metaEnt.ServerURL metaEnt.HMACIDCred "" =
      .error "hmac-id and hmac-key are required for enterprise CA" ∧
    (∃ e, (renewDomain allOkRenewEnv rootEnt "ent.example.com").1 = .error e) ∧
    (renewDomain allOkRenewEnv rootEnt "ent.example.com").2.1 = rootEnt ∧
    (renewDomain allOkRenewEnv rootEnt "ent.example.com").2.2 = [] :=
  C2_enterprise_renewal_always_fails allOkRenewEnv rootEnt "ent.example.com"
    metaEnt rfl (by decide)

/-! ## Claim C3 — renew succeeds whenever iteration completes -/

/-- C3: the renew command fails only when listing the metadata root fails;
whenever the listing succeeds the overall result is success regardless of
individual domain outcomes, and with zero stored records it succeeds
trivially with no state change and no certificate operation. -/
theorem C3_renew_overall_success (env : RenewEnv) (root : CertsRoot)
    (h : env.listOk = true) :
    (renewCmd env root).1 = .ok () ∧
    (ListAll root = [] → (renewCmd env root).2 = (root, [])) := by
  constructor
  · unfold renewCmd
    rw [h]
    simp only [Bool.not_true, Bool.false_eq_true, if_false]
    split <;> rfl
  · intro h0
    unfold renewCmd
    rw [h, h0]
    rfl

theorem C3_renew_overall_success_witness :
    (renewCmd allOkRenewEnv []).1 = .ok () ∧
    (renewCmd allOkRenewEnv []).2 = ([], []) :=
  ⟨(C3_renew_overall_success allOkRenewEnv [] rfl).1,
   (C3_renew_overall_success allOkRenewEnv [] rfl).2 rfl⟩

/-! ## Claim C1 — renewal bookkeeping -/

/-- Any client produced by `Resolve` satisfies the scaffold's
always-succeeding `RequestCertificate`. -/
theorem resolve_ok_request (url id key : String) (ds : List String)
    (c : CAClient) (h : Resolve url id key = .ok c) :
    ∃ cm, RequestCertificate c ds = .ok cm := by
  unfold Resolve at h
  by_cases hu : url = ""
  · rw [if_pos hu] at h
    injection h with h
    subst h
    exact ⟨_, rfl⟩
  · rw [if_neg hu] at h
    by_cases hik : id = "" ∨ key = ""
    · rw [if_pos hik] at h
      cases h
    · rw [if_neg hik] at h
      injection h with h
      subst h
      unfold RequestCertificate
      dsimp only
      rw [if_neg hu]
      exact ⟨_, rfl⟩

/-- C1 (amended): a renewal attempt mutates the stored record only when it
fully succeeds — any failure (load, credentials, CA resolution, plugin,
validation) returns the error with the metadata root unchanged, and on a
fully successful attempt with a successful metadata write the stored
record is exactly the loaded one with `RenewalAttempts` incremented and
`LastRenewalAt` set to the current time. -/
theorem C1_renewal_bookkeeping (env : RenewEnv) (root : CertsRoot) (d : String) :
    (∀ e, (renewDomain env root d).1 = .error e →
      (renewDomain env root d).2.1 = root) ∧
    (∀ meta root2, Load root d = .ok meta →
      (renewDomain env root d).1 = .ok () → env.storeOk = true →
      Store root
          { meta with
              LastRenewalAt := env.now
              RenewalAttempts := meta.RenewalAttempts + 1 } = .ok root2 →
      (renewDomain env root d).2.1 = root2) := by
  constructor
  · intro e h
    unfold renewDomain at h ⊢
    cases hL : Load root d with
    | error msg => rfl
    | ok meta =>
      rw [hL] at h
      dsimp only at h ⊢
      by_cases hcr : (!env.credsOk meta.CredentialsPath) = true
      · rw [if_pos hcr]
      · rw [if_neg hcr] at h ⊢
        cases hR : Resolve meta.ServerURL meta.HMACIDCred "" with
        | error msg => rfl
        | ok caClient =>
          rw [hR] at h
          dsimp only at h ⊢
          by_cases hg1 : meta.ValidationMethod = "dns" ∧ meta.DNSProvider = ""
          · rw [if_pos hg1]
          · rw [if_neg hg1] at h ⊢
            by_cases hg2 : meta.ValidationMethod = "dns" ∧
                (!env.pluginOk meta.DNSProvider) = true
            · rw [if_pos hg2]
            · rw [if_neg hg2] at h ⊢
              cases hV : (Validate meta.ValidationMethod
                  (decide (meta.ValidationMethod = "dns")) env.val
                  meta.Domains).1 with
              | error msg => rfl
              | ok u =>
                rw [hV] at h
                obtain ⟨cm, hcm⟩ :=
                  resolve_ok_request meta.ServerURL meta.HMACIDCred ""
                    meta.Domains caClient hR
                rw [hcm] at h ⊢
                dsimp only at h ⊢
                rw [show InstallCertificate (some cm) = Except.ok ()
                  from rfl] at h ⊢
                dsimp only at h ⊢
                by_cases hs : env.storeOk = true
                · rw [if_pos hs] at h
                  cases hSt : Store root
                      { meta with
                          LastRenewalAt := env.now
                          RenewalAttempts := meta.RenewalAttempts + 1 } with
                  | ok r2 => rw [hSt] at h; simp at h
                  | error msg => rw [hSt] at h; simp at h
                · rw [if_neg hs] at h; simp at h
  · intro meta root2 hL h hs hStore
    unfold renewDomain at h ⊢
    rw [hL] at h ⊢
    dsimp only at h ⊢
    by_cases hcr : (!env.credsOk meta.CredentialsPath) = true
    · rw [if_pos hcr] at h; simp at h
    · rw [if_neg hcr] at h ⊢
      cases hR : Resolve meta.ServerURL meta.HMACIDCred "" with
      | error msg => rw [hR] at h; simp at h
      | ok caClient =>
        rw [hR] at h
        dsimp only at h ⊢
        by_cases hg1 : meta.ValidationMethod = "dns" ∧ meta.DNSProvider = ""
        · rw [if_pos hg1] at h; simp at h
        · rw [if_neg hg1] at h ⊢
          by_cases hg2 : meta.ValidationMethod = "dns" ∧
              (!env.pluginOk meta.DNSProvider) = true
          · rw [if_pos hg2] at h; simp at h
          · rw [if_neg hg2] at h ⊢
            cases hV : (Validate meta.ValidationMethod
                (decide (meta.ValidationMethod = "dns")) env.val
                meta.Domains).1 with
            | error msg => rw [hV] at h; simp at h
            | ok u =>
              rw [hV] at h
              obtain ⟨cm, hcm⟩ :=
                resolve_ok_request meta.ServerURL meta.HMACIDCred ""
                  meta.Domains caClient hR
              rw [hcm] at h ⊢
              dsimp only at h ⊢
              rw [show InstallCertificate (some cm) = Except.ok ()
                from rfl] at h ⊢
              dsimp only at h ⊢
              rw [if_pos hs] at h ⊢
              rw [hStore] at h ⊢

/-- C1 counterexample: a renewal attempt whose validation fails (stored
method "email" always fails) leaves the stored record completely
unchanged — `RenewalAttempts` is NOT incremented and `LastRenewalAt` is
NOT refreshed, contradicting "mutated in place on every renewal attempt
regardless of that attempt's success". -/
theorem C1_counterexample :
    (renewDomain allOkRenewEnv rootEmail "example.com").1 =
      .error "validation failed: email validation not implemented yet" ∧
    (renewDomain allOkRenewEnv rootEmail "example.com").2.1 = rootEmail ∧
    Load rootEmail "example.com" = .ok metaEmail ∧
    metaEmail.RenewalAttempts = 0 ∧ metaEmail.LastRenewalAt = 0 := by
  refine ⟨rfl, rfl, rfl, rfl, rfl⟩

theorem C1_renewal_bookkeeping_witness :
    (renewDomain allOkRenewEnv rootEmail "example.com").2.1 = rootEmail ∧
    (renewDomain allOkRenewEnv rootHTTP "example.com").2.1 =
      [.dir "example.com" (some (.wellFormed
        { metaHTTP with LastRenewalAt := 100, RenewalAttempts := 1 }))] :=
  ⟨(C1_renewal_bookkeeping allOkRenewEnv rootEmail "example.com").1
      "validation failed: email validation not implemented yet" rfl,
   (C1_renewal_bookkeeping allOkRenewEnv rootHTTP "example.com").2
      metaHTTP _ rfl rfl rfl rfl⟩

theorem nonCertOp_mkdir (p : String) : nonCertOp (.mkdirE p) := by
  simp [nonCertOp]

theorem nonCertOp_account (c : String) : nonCertOp (.accountWriteE c) := by
  simp [nonCertOp]

theorem nonCertOp_write (p c : String) (h : c ≠ "token-placeholder") :
    nonCertOp (.writeE p c) := by
  simp [nonCertOp, h]

theorem nonCertOp_app {l1 l2 : List Event}
    (h1 : ∀ ev ∈ l1, nonCertOp ev) (h2 : ∀ ev ∈ l2, nonCertOp ev) :
    ∀ ev ∈ l1 ++ l2, nonCertOp ev := by
  intro ev hev
  rcases List.mem_append.mp hev with h | h
  · exact h1 ev h
  · exact h2 ev h

theorem nonCertOp_tr1 (a k : String) :
    ∀ ev ∈ [Event.mkdirE a, Event.mkdirE a, Event.writeE k "PEM-KEY"],
      nonCertOp ev := by
  intro ev hev
  simp only [List.mem_cons, List.not_mem_nil, or_false] at hev
  rcases hev with rfl | rfl | rfl
  · exact nonCertOp_mkdir _
  · exact nonCertOp_mkdir _
  · exact nonCertOp_write _ _ (by decide)

theorem nonCertOp_tr1b (a c : String) :
    ∀ ev ∈ [Event.mkdirE a, Event.writeE c "PEM-CSR"], nonCertOp ev := by
  intro ev hev
  simp only [List.mem_cons, List.not_mem_nil, or_false] at hev
  rcases hev with rfl | rfl
  · exact nonCertOp_mkdir _
  · exact nonCertOp_write _ _ (by decide)

theorem nonCertOp_nil : ∀ ev ∈ ([] : List Event), nonCertOp ev := by
  intro ev hev
  cases hev

theorem nonCertOp_acctIf (b : Prop) [Decidable b] (cd cn : String) :
    ∀ ev ∈ (if b then ([] : List Event)
      else [.mkdirE cd, .accountWriteE cn]), nonCertOp ev := by
  split
  · exact nonCertOp_nil
  · intro ev hev
    simp only [List.mem_cons, List.not_mem_nil, or_false] at hev
    rcases hev with rfl | rfl
    · exact nonCertOp_mkdir _
    · exact nonCertOp_account _

/-- C4 counterexample: `request --domains example.com --validation dns`
with no `--dns-provider` does fail with the configuration error, but only
AFTER filesystem side effects: the certificate directory was created, the
private key and CSR were written, and the account was stored. -/
theorem C4_counterexample :
    requestCmd flagsDNSNoProvider allOkReqEnv [] =
      (.error "--dns-provider is required for dns validation", [],
        [.mkdirE "/opt/trustctl/certs/example.com",
         .mkdirE "/opt/trustctl/certs/example.com",
         .writeE "/opt/trustctl/certs/example.com/privkey.pem" "PEM-KEY",
         .mkdirE "/opt/trustctl/certs/example.com",
         .writeE "/opt/trustctl/certs/example.com/csr.pem" "PEM-CSR",
         .mkdirE "/opt/trustctl/credentials",
         .accountWriteE "letsencrypt"]) := rfl

/-- C4 (amended): with dns validation and no provider name the request
command always fails (with the dns-provider configuration error when no
earlier step failed first) and performs no certificate operation — no CA
request, no installation, no challenge presentation or token write, no
metadata write — though the failure comes only after the certificate
directory, key, CSR and account side effects. -/
theorem C4_dns_flag_config_error (flags : ReqFlags) (env : ReqEnv)
    (root : CertsRoot) (hv : lowerStr flags.validation = "dns")
    (hp : flags.dnsProvider = "") :
    (∃ e, (requestCmd flags env root).1 = .error e) ∧
    (requestCmd flags env root).2.1 = root ∧
    (∀ ev ∈ (requestCmd flags env root).2.2, nonCertOp ev) := by
  unfold requestCmd
  by_cases hd : flags.domains = ""
  · rw [if_pos hd]
    exact ⟨⟨_, rfl⟩, rfl, nonCertOp_nil⟩
  · rw [if_neg hd]
    dsimp only
    rw [hv, hp]
    have hnl : ¬(("dns" : String) = "" ∨ ("dns" : String) = "http") := by decide
    rw [if_neg hnl]
    set certDir := certsPath ++ "/" ++
      (((splitOnChar ',' flags.domains).map trimStr).headD "") with hCD
    set keyPath := certDir ++ "/privkey.pem" with hKP
    set csrPath := certDir ++ "/csr.pem" with hCP
    set caName := (if flags.serverURL = "" then "letsencrypt"
      else "enterprise-ca" : String) with hCN
    have htr4 : ∀ ev ∈ ([.mkdirE certDir, .mkdirE certDir,
        .writeE keyPath "PEM-KEY"] ++ [.mkdirE certDir,
        .writeE csrPath "PEM-CSR"] ++ [] ++
        (if env.accountExists = true then []
          else [Event.mkdirE credentialsPath, .accountWriteE caName])),
        nonCertOp ev :=
      nonCertOp_app (nonCertOp_app (nonCertOp_app
        (nonCertOp_tr1 certDir keyPath) (nonCertOp_tr1b certDir csrPath))
        nonCertOp_nil)
        (nonCertOp_acctIf (env.accountExists = true) credentialsPath caName)
    by_cases h1 : (!env.mkdirOk certDir) = true
    · rw [if_pos h1]
      refine ⟨⟨_, rfl⟩, rfl, ?_⟩
      intro ev hev
      simp only [List.mem_cons, List.not_mem_nil, or_false] at hev
      rw [hev]
      exact nonCertOp_mkdir _
    · rw [if_neg h1]
      by_cases h2 : (!env.genOk) = true
      · rw [if_pos h2]
        refine ⟨⟨_, rfl⟩, rfl, ?_⟩
        intro ev hev
        simp only [List.mem_cons, List.not_mem_nil, or_false] at hev
        rw [hev]
        exact nonCertOp_mkdir _
      · rw [if_neg h2]
        by_cases h3 : (!env.writeOk keyPath) = true
        · rw [if_pos h3]
          exact ⟨⟨_, rfl⟩, rfl, nonCertOp_tr1 _ _⟩
        · rw [if_neg h3]
          by_cases h4 : (!env.writeOk csrPath) = true
          · rw [if_pos h4]
            exact ⟨⟨_, rfl⟩, rfl,
              nonCertOp_app (nonCertOp_tr1 _ _) (nonCertOp_tr1b _ _)⟩
          · rw [if_neg h4]
            rw [if_neg (fun hcon => hnl hcon.1)]
            by_cases h5 : (!env.accountExists) = true ∧ (!env.accountStoreOk) = true
            · rw [if_pos h5]
              exact ⟨⟨_, rfl⟩, rfl, htr4⟩
            · rw [if_neg h5]
              by_cases h6 : (!env.credsOk) = true
              · rw [if_pos h6]
                exact ⟨⟨_, rfl⟩, rfl, htr4⟩
              · rw [if_neg h6]
                cases hres : Resolve flags.serverURL flags.hmacID flags.hmacKey with
                | error msg =>
                  dsimp only
                  exact ⟨⟨_, rfl⟩, rfl, htr4⟩
                | ok caClient =>
                  dsimp only
                  rw [if_neg (by decide : ¬("dns" : String) = "")]
                  rw [if_pos ⟨rfl, rfl⟩]
                  exact ⟨⟨_, rfl⟩, rfl, htr4⟩

theorem C4_dns_flag_config_error_witness :
    (∃ e, (requestCmd flagsDNSNoProvider allOkReqEnv []).1 = .error e) ∧
    (requestCmd flagsDNSNoProvider allOkReqEnv []).2.1 = [] ∧
    (∀ ev ∈ (requestCmd flagsDNSNoProvider allOkReqEnv []).2.2, nonCertOp ev) :=
  C4_dns_flag_config_error flagsDNSNoProvider allOkReqEnv [] rfl rfl

theorem tokenWrites_append (l1 l2 : List Event) :
    tokenWrites (l1 ++ l2) = tokenWrites l1 ++ tokenWrites l2 :=
  List.filterMap_append l1 l2 _

theorem TokOnly_nil (ds : List String) : TokOnly ds [] := by
  intro p hp
  cases hp

theorem TokOnly_app {ds : List String} {l1 l2 : List Event}
    (h1 : TokOnly ds l1) (h2 : TokOnly ds l2) : TokOnly ds (l1 ++ l2) := by
  intro p hp
  rw [tokenWrites_append] at hp
  rcases List.mem_append.mp hp with h | h
  · exact h1 p h
  · exact h2 p h

theorem TokOnly_cons_mkdir {ds : List String} {l : List Event} (q : String)
    (h : TokOnly ds l) : TokOnly ds (.mkdirE q :: l) := by
  intro p hp
  exact h p hp

theorem TokOnly_cons_write {ds : List String} {l : List Event} (q c : String)
    (hc : c ≠ "token-placeholder") (h : TokOnly ds l) :
    TokOnly ds (.writeE q c :: l) := by
  intro p hp
  apply h p
  simpa [tokenWrites, hc] using hp

theorem TokOnly_cons_request {ds : List String} {l : List Event}
    (h : TokOnly ds l) : TokOnly ds (.requestE :: l) := fun p hp => h p hp

theorem TokOnly_cons_install {ds : List String} {l : List Event}
    (h : TokOnly ds l) : TokOnly ds (.installE :: l) := fun p hp => h p hp

theorem TokOnly_cons_meta {ds : List String} {l : List Event} (q : String)
    (h : TokOnly ds l) : TokOnly ds (.metaWriteE q :: l) := fun p hp => h p hp

theorem TokOnly_cons_account {ds : List String} {l : List Event} (q : String)
    (h : TokOnly ds l) : TokOnly ds (.accountWriteE q :: l) := fun p hp => h p hp

theorem TokOnly_acctIf (ds : List String) (b : Prop) [Decidable b]
    (cd cn : String) :
    TokOnly ds (if b then ([] : List Event)
      else [.mkdirE cd, .accountWriteE cn]) := by
  split
  · exact TokOnly_nil ds
  · exact TokOnly_cons_mkdir _ (TokOnly_cons_account _ (TokOnly_nil ds))

theorem TokOnly_chalIf (ds : List String) (b : Prop) [Decidable b]
    (cd : String) :
    TokOnly ds (if b then [Event.mkdirE cd] else ([] : List Event)) := by
  split
  · exact TokOnly_cons_mkdir _ (TokOnly_nil ds)
  · exact TokOnly_nil ds

theorem TokOnly_tr1 (ds : List String) (a k : String) :
    TokOnly ds [Event.mkdirE a, Event.mkdirE a, Event.writeE k "PEM-KEY"] :=
  TokOnly_cons_mkdir _ (TokOnly_cons_mkdir _
    (TokOnly_cons_write _ _ (by decide) (TokOnly_nil ds)))

theorem TokOnly_tr1b (ds : List String) (a c : String) :
    TokOnly ds [Event.mkdirE a, Event.writeE c "PEM-CSR"] :=
  TokOnly_cons_mkdir _ (TokOnly_cons_write _ _ (by decide) (TokOnly_nil ds))

theorem tokenWrites_map_presentE (ds : List String) :
    tokenWrites (ds.map Event.presentE) = [] := by
  induction ds with
  | nil => rfl
  | cons d ds ih => simpa [tokenWrites] using ih

theorem tokenWrites_map_cleanupE (ds : List String) :
    tokenWrites (ds.map Event.cleanupE) = [] := by
  induction ds with
  | nil => rfl
  | cons d ds ih => simpa [tokenWrites] using ih

theorem tokenWrites_cons_tok (q : String) (l : List Event) :
    tokenWrites (.writeE q "token-placeholder" :: l) = q :: tokenWrites l := by
  simp [tokenWrites]

theorem TokOnly_writeTokens (env : ValEnv) :
    ∀ ds : List String, TokOnly ds (writeTokens env ds).2
  | [] => TokOnly_nil []
  | d :: ds => by
    unfold writeTokens
    by_cases hw : env.writeOk (tokenPath d) = true
    · rw [if_pos hw]
      dsimp only
      intro p hp
      rw [tokenWrites_cons_tok] at hp
      rcases List.mem_cons.mp hp with rfl | hp
      · exact ⟨d, by simp⟩
      · obtain ⟨d2, hd2, hp2⟩ := TokOnly_writeTokens env ds p hp
        exact ⟨d2, by simp [hd2], hp2⟩
    · rw [if_neg hw]
      dsimp only
      intro p hp
      rw [tokenWrites_cons_tok] at hp
      rcases List.mem_cons.mp hp with rfl | hp
      · exact ⟨d, by simp⟩
      · exact absurd hp (by simp [tokenWrites])

theorem TokOnly_doHTTP (env : ValEnv) (ds : List String) :
    TokOnly ds (doHTTP env ds).2 := by
  unfold doHTTP
  by_cases hm : env.mkOk = true
  · rw [if_pos hm]
    exact TokOnly_cons_mkdir _ (TokOnly_writeTokens env ds)
  · rw [if_neg hm]
    exact TokOnly_cons_mkdir _ (TokOnly_nil ds)

theorem TokOnly_doDNS (env : ValEnv) (ds : List String) :
    TokOnly ds (doDNS env ds).2 := by
  unfold doDNS
  cases hf : ds.find? (fun d => !env.presentOk d) with
  | some d =>
    intro p hp
    rw [tokenWrites_map_presentE] at hp
    cases hp
  | none =>
    intro p hp
    rw [tokenWrites_append, tokenWrites_map_presentE,
      tokenWrites_map_cleanupE] at hp
    cases hp

theorem TokOnly_Validate (vt : String) (hp : Bool) (env : ValEnv)
    (ds : List String) : TokOnly ds (Validate vt hp env ds).2 := by
  unfold Validate
  by_cases h1 : vt = "dns"
  · rw [if_pos h1]
    cases hp with
    | true => exact TokOnly_doDNS env ds
    | false => exact TokOnly_nil ds
  · rw [if_neg h1]
    by_cases h2 : vt = "http"
    · rw [if_pos h2]
      exact TokOnly_doHTTP env ds
    · rw [if_neg h2]
      by_cases h3 : vt = "email"
      · rw [if_pos h3]
        exact TokOnly_nil ds
      · rw [if_neg h3]
        exact TokOnly_nil ds

/-- Both scaffold CA clients return fixed PEM payloads, never the
challenge-token placeholder. -/
theorem request_pem (c : CAClient) (ds : List String) (cm : CertificateMeta)
    (h : RequestCertificate c ds = .ok cm) : cm.PEM ≠ "token-placeholder" := by
  cases c with
  | letsencrypt =>
    unfold RequestCertificate at h
    injection h with h
    subst h
    exact (by decide : ("---BEGIN CERT---\n..." : String) ≠ "token-placeholder")
  | enterprise u i k =>
    unfold RequestCertificate at h
    dsimp only at h
    by_cases hu : u = ""
    · rw [if_pos hu] at h
      cases h
    · rw [if_neg hu] at h
      injection h with h
      subst h
      exact (by decide :
        ("---BEGIN CERT ENTERPRISE---\n..." : String) ≠ "token-placeholder")

/-- Token writes of the whole request flow target only the fixed
challenge path, for every flag combination (in particular for every
`--webroot` value). -/
theorem TokOnly_requestCmd (flags : ReqFlags) (env : ReqEnv) (root : CertsRoot) :
    TokOnly ((splitOnChar ',' flags.domains).map trimStr)
      (requestCmd flags env root).2.2 := by
  unfold requestCmd
  by_cases hd : flags.domains = ""
  · rw [if_pos hd]
    exact TokOnly_nil _
  · rw [if_neg hd]
    dsimp only
    set ds := (splitOnChar ',' flags.domains).map trimStr with hDS
    set certDir := certsPath ++ "/" ++ ds.headD "" with hCD
    set keyPath := certDir ++ "/privkey.pem" with hKP
    set csrPath := certDir ++ "/csr.pem" with hCP
    set chalDir := (if flags.webroot = "" then "/var/www/html"
      else flags.webroot) ++ "/.well-known/acme-challenge" with hCH
    set vlow := lowerStr flags.validation with hVL
    set caName := (if flags.serverURL = "" then "letsencrypt"
      else "enterprise-ca" : String) with hCN
    have htr4 : TokOnly ds
        ((([Event.mkdirE certDir, .mkdirE certDir, .writeE keyPath "PEM-KEY"] ++
          [Event.mkdirE certDir, .writeE csrPath "PEM-CSR"]) ++
          (if vlow = "" ∨ vlow = "http" then [Event.mkdirE chalDir] else [])) ++
          (if env.accountExists = true then []
            else [Event.mkdirE credentialsPath, .accountWriteE caName])) :=
      TokOnly_app (TokOnly_app (TokOnly_app (TokOnly_tr1 _ _ _)
        (TokOnly_tr1b _ _ _)) (TokOnly_chalIf _ _ _)) (TokOnly_acctIf _ _ _ _)
    by_cases h1 : (!env.mkdirOk certDir) = true
    · rw [if_pos h1]
      exact TokOnly_cons_mkdir _ (TokOnly_nil _)
    · rw [if_neg h1]
      by_cases h2 : (!env.genOk) = true
      · rw [if_pos h2]
        exact TokOnly_cons_mkdir _ (TokOnly_nil _)
      · rw [if_neg h2]
        by_cases h3 : (!env.writeOk keyPath) = true
        · rw [if_pos h3]
          exact TokOnly_tr1 _ _ _
        · rw [if_neg h3]
          by_cases h4 : (!env.writeOk csrPath) = true
          · rw [if_pos h4]
            exact TokOnly_app (TokOnly_tr1 _ _ _) (TokOnly_tr1b _ _ _)
          · rw [if_neg h4]
            by_cases h4b : (vlow = "" ∨ vlow = "http") ∧
                (!env.mkdirOk chalDir) = true
            · rw [if_pos h4b]
              exact TokOnly_app (TokOnly_app (TokOnly_tr1 _ _ _)
                (TokOnly_tr1b _ _ _)) (TokOnly_chalIf _ _ _)
            · rw [if_neg h4b]
              by_cases h5 : (!env.accountExists) = true ∧
                  (!env.accountStoreOk) = true
              · rw [if_pos h5]
                exact htr4
              · rw [if_neg h5]
                by_cases h6 : (!env.credsOk) = true
                · rw [if_pos h6]
                  exact htr4
                · rw [if_neg h6]
                  cases hres : Resolve flags.serverURL flags.hmacID flags.hmacKey with
                  | error msg =>
                    dsimp only
                    exact htr4
                  | ok caClient =>
                    dsimp only
                    by_cases hg1 : (if vlow = "" then "http" else vlow) = "dns" ∧
                        flags.dnsProvider = ""
                    · rw [if_pos hg1]
                      exact htr4
                    · rw [if_neg hg1]
                      by_cases hg2 : (if vlow = "" then "http" else vlow) = "dns" ∧
                          (!env.pluginOk flags.dnsProvider) = true
                      · rw [if_pos hg2]
                        exact htr4
                      · rw [if_neg hg2]
                        have hval := TokOnly_Validate
                          (if vlow = "" then "http" else vlow)
                          (decide ((if vlow = "" then "http" else vlow) = "dns"))
                          env.val ds
                        cases hV : (Validate (if vlow = "" then "http" else vlow)
                            (decide ((if vlow = "" then "http" else vlow) = "dns"))
                            env.val ds).1 with
                        | error msg =>
                          dsimp only
                          intro p hp
                          rw [tokenWrites_append] at hp
                          rcases List.mem_append.mp hp with h | h
                          · exact htr4 p h
                          · exact hval p h
                        | ok u =>
                          dsimp only
                          cases hreq : RequestCertificate caClient ds with
                          | error msg =>
                            dsimp only
                            intro p hp
                            rw [tokenWrites_append, tokenWrites_append] at hp
                            rcases List.mem_append.mp hp with h | h
                            · rcases List.mem_append.mp h with h1 | h1
                              · exact htr4 p h1
                              · exact hval p h1
                            · exact absurd h (by simp [tokenWrites])
                          | ok cm =>
                            dsimp only
                            have hpem : cm.PEM ≠ "token-placeholder" :=
                              request_pem caClient ds cm hreq
                            by_cases h7 : (!env.writeOk (certDir ++ "/fullchain.pem")) = true
                            · rw [if_pos h7]
                              intro p hp
                              rw [tokenWrites_append, tokenWrites_append] at hp
                              rcases List.mem_append.mp hp with h | h
                              · rcases List.mem_append.mp h with h1 | h1
                                · exact htr4 p h1
                                · exact hval p h1
                              · exact absurd h (by simp [tokenWrites, hpem])
                            · rw [if_neg h7]
                              rw [show InstallCertificate (some cm) = Except.ok ()
                                from rfl]
                              dsimp only
                              split
                              · split
                                · intro p hp
                                  rw [tokenWrites_append, tokenWrites_append,
                                    tokenWrites_append] at hp
                                  rcases List.mem_append.mp hp with h | h
                                  · rcases List.mem_append.mp h with h1 | h1
                                    · rcases List.mem_append.mp h1 with h2 | h2
                                      · exact htr4 p h2
                                      · exact hval p h2
                                    · exact absurd h1 (by simp [tokenWrites, hpem])
                                  · exact absurd h (by simp [tokenWrites])
                                · intro p hp
                                  rw [tokenWrites_append, tokenWrites_append,
                                    tokenWrites_append] at hp
                                  rcases List.mem_append.mp hp with h | h
                                  · rcases List.mem_append.mp h with h1 | h1
                                    · rcases List.mem_append.mp h1 with h2 | h2
                                      · exact htr4 p h2
                                      · exact hval p h2
                                    · exact absurd h1 (by simp [tokenWrites, hpem])
                                  · exact absurd h (by simp [tokenWrites])
                              · intro p hp
                                rw [tokenWrites_append, tokenWrites_append,
                                  tokenWrites_append] at hp
                                rcases List.mem_append.mp hp with h | h
                                · rcases List.mem_append.mp h with h1 | h1
                                  · rcases List.mem_append.mp h1 with h2 | h2
                                    · exact htr4 p h2
                                    · exact hval p h2
                                  · exact absurd h1 (by simp [tokenWrites, hpem])
                                · exact absurd h (by simp [tokenWrites])

theorem writeTokens_all_ok (env : ValEnv) :
    ∀ ds : List String, (∀ d ∈ ds, env.writeOk (tokenPath d) = true) →
      writeTokens env ds = (.ok (),
        ds.map (fun d => .writeE (tokenPath d) "token-placeholder"))
  | [], _ => rfl
  | d :: ds, h => by
    unfold writeTokens
    rw [if_pos (h d (by simp))]
    rw [writeTokens_all_ok env ds (fun d2 hd2 => h d2 (by simp [hd2]))]
    rfl

/-- C10: the HTTP validator writes every challenge token to the fixed
path `/var/www/html/.well-known/acme-challenge/<domain>.token` with the
fixed placeholder content (it has no webroot input at all); at every
dispatch of the validation engine and throughout the whole request
command — hence for every value of the `--webroot` flag — any
token-placeholder write targets only those fixed per-domain paths. -/
theorem C10_http_tokens_fixed_path :
    (∀ (env : ValEnv) (ds : List String), env.mkOk = true →
      (∀ d ∈ ds, env.writeOk (tokenPath d) = true) →
      doHTTP env ds = (.ok (), .mkdirE httpBase ::
        ds.map (fun d => .writeE (tokenPath d) "token-placeholder"))) ∧
    (∀ (vt : String) (hp : Bool) (env : ValEnv) (ds : List String),
      TokOnly ds (Validate vt hp env ds).2) ∧
    (∀ (flags : ReqFlags) (env : ReqEnv) (root : CertsRoot),
      TokOnly ((splitOnChar ',' flags.domains).map trimStr)
        (requestCmd flags env root).2.2) := by
  refine ⟨fun env ds hm hw => ?_, TokOnly_Validate, TokOnly_requestCmd⟩
  unfold doHTTP
  rw [if_pos hm, writeTokens_all_ok env ds hw]

theorem C10_http_tokens_fixed_path_witness :
    doHTTP allOkVal ["example.com"] = (.ok (), [.mkdirE httpBase,
      .writeE "/var/www/html/.well-known/acme-challenge/example.com.token"
        "token-placeholder"]) ∧
    (∃ d ∈ ["example.com"],
      "/var/www/html/.well-known/acme-challenge/example.com.token" =
        tokenPath d) ∧
    (∃ d ∈ (splitOnChar ',' flagsCustomWebroot.domains).map trimStr,
      "/var/www/html/.well-known/acme-challenge/example.com.token" =
        tokenPath d) ∧
    Event.mkdirE "/custom/.well-known/acme-challenge" ∈
      (requestCmd flagsCustomWebroot allOkReqEnv []).2.2 :=
  ⟨C10_http_tokens_fixed_path.1 allOkVal ["example.com"] rfl (by decide),
   C10_http_tokens_fixed_path.2.1 "http" false allOkVal ["example.com"]
     "/var/www/html/.well-known/acme-challenge/example.com.token" (by decide),
   C10_http_tokens_fixed_path.2.2 flagsCustomWebroot allOkReqEnv []
     "/var/www/html/.well-known/acme-challenge/example.com.token" (by decide),
   by decide⟩

/-- C9 counterexample: with a certificate path containing whitespace the
apache update path is NOT idempotent — the `SSLCertificateFile\s+\S+`
pattern re-matches only up to the space, so the second run changes the
file again and the content-equality check does not short-circuit: a
second backup/temp-write/rename happens. -/
theorem C9_counterexample :
    updateApacheSSL (updateApacheSSL apacheVhost certWithSpace keyPlain domArg)
        certWithSpace keyPlain domArg ≠
      updateApacheSSL apacheVhost certWithSpace keyPlain domArg ∧
    (sslUpdateStep
      (fun s => updateApacheSSL s certWithSpace keyPlain domArg)
      (updateApacheSSL apacheVhost certWithSpace keyPlain domArg)).2 = true := by
  constructor
  · decide
  · decide

/-- C9 (amended): for certificate and key paths that are non-empty and
contain no whitespace, one nginx or apache update pass is idempotent, so
on a second call with identical paths the content-equality check
short-circuits the rewrite and no backup, temporary file or rename
occurs; with a whitespace-containing (or empty) path the apache pattern
re-matches only part of the replaced line and the second call rewrites
the file again. -/
theorem C9_update_idempotent (content : List (List Char))
    (cert key domain : List Char)
    (hc : cert ≠ []) (hcw : ∀ c ∈ cert, isWS c = false)
    (hk : key ≠ []) (hkw : ∀ c ∈ key, isWS c = false) :
    updateNginxSSL (updateNginxSSL content cert key domain) cert key domain =
      updateNginxSSL content cert key domain ∧
    updateApacheSSL (updateApacheSSL content cert key domain) cert key domain =
      updateApacheSSL content cert key domain ∧
    (sslUpdateStep (fun s => updateNginxSSL s cert key domain)
      (updateNginxSSL content cert key domain)).2 = false ∧
    (sslUpdateStep (fun s => updateApacheSSL s cert key domain)
      (updateApacheSSL content cert key domain)).2 = false := by
  have h1 := updateNginxSSL_idem content cert key domain hc hcw hk hkw
  have h2 := updateApacheSSL_idem content cert key domain hc hcw hk hkw
  refine ⟨h1, h2, ?_, ?_⟩
  · unfold sslUpdateStep
    rw [if_pos h1]
  · unfold sslUpdateStep
    rw [if_pos h2]

theorem C9_update_idempotent_witness :
    updateNginxSSL (updateNginxSSL nginxVhost certPlain keyPlain domArg)
        certPlain keyPlain domArg =
      updateNginxSSL nginxVhost certPlain keyPlain domArg ∧
    (sslUpdateStep (fun s => updateApacheSSL s certPlain keyPlain domArg)
      (updateApacheSSL apacheVhost certPlain keyPlain domArg)).2 = false :=
  ⟨(C9_update_idempotent nginxVhost certPlain keyPlain domArg
      (by decide) (by decide) (by decide) (by decide)).1,
   (C9_update_idempotent apacheVhost certPlain keyPlain domArg
      (by decide) (by decide) (by decide) (by decide)).2.2.2⟩

end Trustctl
